import Mathlib

/-!
Verification development for the `beer` library (Bayesian exponential-family
models with natural-gradient variational inference).

We give a shallow embedding, over exact rational arithmetic, of the parts of
the code relevant to the checked properties:

* `beer/models/parameters.py` — `BayesianParameter` /
  `ConjugateBayesianParameter` (statistics storage, callback dispatch,
  natural-gradient update);
* `beer/models/gsm.py` — the generalized subspace model: the `full`,
  `diagonal` and `scalar` Hessian variants of `latent_posteriors` and
  `accumulate`, and the `create` dispatch;
* `beer/models/normalset.py` — the `NormalSet.create` covariance-type check;
* `beer/dists/normalgamma.py` — the `NormalGamma` standard/natural parameter
  conversion.

Tensors become functions on `Fin` index types with values in `ℚ`; elementwise
torch operations become pointwise definitions with explicit `Finset` sums.
External collaborators (the likelihood function's `argmax` / `hessian`, the
latent prior's natural-parameter vector, posterior moments) enter the
definitions as explicit arguments, mirroring how the code reads them.
-/

namespace Beer

/-! ## `beer/models/parameters.py`

`ConjugateBayesianParameter` stores a prior and a posterior of the same
exponential family together with an accumulated-statistics buffer `_stats`
and a set `_callbacks` of registered observers.  We model the prior and the
posterior by their natural-parameter vectors (in exact arithmetic the
standard/natural conversion is lossless, see the `NormalGamma` round-trip
below), and a callback by an identifier in `ℕ`; the Python `set` becomes a
`Finset ℕ`.  Calling a callback is modelled by recording the pair
(callback id, state of the parameter at call time). -/

structure ConjugateBayesianParameter (n : ℕ) where
  prior_nparams : Fin n → ℚ
  posterior_nparams : Fin n → ℚ
  stats : Fin n → ℚ
  callbacks : Finset ℕ
  deriving DecidableEq

namespace ConjugateBayesianParameter

variable {n : ℕ}

/-- `BayesianParameter.store_stats`: replace the accumulated statistics
(the `requires_grad` branch only detaches the tensor; the stored value is
`acc_stats` either way). -/
def store_stats (p : ConjugateBayesianParameter n) (acc_stats : Fin n → ℚ) :
    ConjugateBayesianParameter n :=
  { p with stats := acc_stats }

/-- `BayesianParameter.zero_stats`: reset the accumulated statistics. -/
def zero_stats (p : ConjugateBayesianParameter n) :
    ConjugateBayesianParameter n :=
  { p with stats := fun _ => 0 }

/-- `BayesianParameter.register_callback`: `self._callbacks.add(callback)`. -/
def register_callback (p : ConjugateBayesianParameter n) (c : ℕ) :
    ConjugateBayesianParameter n :=
  { p with callbacks := insert c p.callbacks }

/-- `BayesianParameter.dispatch`: call every registered callback (the Python
`set` is iterated in an unspecified order; we enumerate it in sorted order).
The result is the list of performed calls, each paired with the state of the
parameter visible to that call. -/
def dispatch (p : ConjugateBayesianParameter n) :
    List (ℕ × ConjugateBayesianParameter n) :=
  (p.callbacks.sort (· ≤ ·)).map (fun c => (c, p))

/-- `ConjugateBayesianParameter.natural_grad_update`:

    natural_grad = prior_nparams + self._stats - posterior_nparams
    new_nparams  = posterior_nparams + lrate * natural_grad

then the posterior is overwritten with `new_nparams` and `dispatch` runs on
the updated object.  Returns the updated parameter and the performed
callback calls. -/
def natural_grad_update (p : ConjugateBayesianParameter n) (lrate : ℚ) :
    ConjugateBayesianParameter n × List (ℕ × ConjugateBayesianParameter n) :=
  let natural_grad := fun i => p.prior_nparams i + p.stats i - p.posterior_nparams i
  let new_nparams := fun i => p.posterior_nparams i + lrate * natural_grad i
  let updated := { p with posterior_nparams := new_nparams }
  (updated, updated.dispatch)

end ConjugateBayesianParameter

end Beer

namespace Beer

/-- C1: the natural-gradient update rule, and its exactness at `lrate = 1`
after storing arbitrary statistics `S`. -/
theorem natural_grad_update_rule {n : ℕ}
    (p : Beer.ConjugateBayesianParameter n) (lrate : ℚ) (S : Fin n → ℚ) :
    ((p.natural_grad_update lrate).1.posterior_nparams =
      fun i => p.posterior_nparams i +
        lrate * (p.prior_nparams i + p.stats i - p.posterior_nparams i)) ∧
    (((p.store_stats S).natural_grad_update 1).1.posterior_nparams =
      fun i => p.prior_nparams i + S i) := by
  constructor
  · rfl
  · funext i
    show p.posterior_nparams i + 1 * (p.prior_nparams i + S i - p.posterior_nparams i) =
      p.prior_nparams i + S i
    ring

/-- Helper: in the call list produced by `dispatch`, a registered callback
appears exactly once. -/
lemma dispatch_count {n : ℕ} (p : Beer.ConjugateBayesianParameter n) (c : ℕ)
    (hc : c ∈ p.callbacks) :
    p.dispatch.countP (fun e => e.1 == c) = 1 := by
  unfold Beer.ConjugateBayesianParameter.dispatch
  rw [List.countP_map]
  have : ((fun e : ℕ × Beer.ConjugateBayesianParameter n => e.1 == c) ∘ fun d => (d, p)) =
      (· == c) := rfl
  rw [this, ← List.count_eq_countP]
  exact List.count_eq_one_of_mem (p.callbacks.sort_nodup _) (Finset.mem_sort _ |>.mpr hc)

/-- Helper: every call performed by `dispatch p` sees the state `p`. -/
lemma dispatch_state {n : ℕ} (p : Beer.ConjugateBayesianParameter n)
    (e : ℕ × Beer.ConjugateBayesianParameter n) (he : e ∈ p.dispatch) : e.2 = p := by
  unfold Beer.ConjugateBayesianParameter.dispatch at he
  obtain ⟨d, -, rfl⟩ := List.mem_map.mp he
  rfl

/-- C8: after registering two distinct callbacks, one `natural_grad_update`
call performs each of them exactly once, and each call sees the parameter
with the already-updated posterior natural parameters. -/
theorem two_callbacks_fire_once_after_update {n : ℕ}
    (p : Beer.ConjugateBayesianParameter n) (lrate : ℚ) (c1 c2 : ℕ) (_hne : c1 ≠ c2) :
    ((((p.register_callback c1).register_callback c2).natural_grad_update lrate).2.countP
      (fun e => e.1 == c1) = 1) ∧
    ((((p.register_callback c1).register_callback c2).natural_grad_update lrate).2.countP
      (fun e => e.1 == c2) = 1) ∧
    (∀ e ∈ (((p.register_callback c1).register_callback c2).natural_grad_update lrate).2,
      e.2.posterior_nparams =
        (((p.register_callback c1).register_callback c2).natural_grad_update
          lrate).1.posterior_nparams) := by
  set q := (p.register_callback c1).register_callback c2 with hq
  have hmem1 : c1 ∈ (q.natural_grad_update lrate).1.callbacks := by
    simp [hq, Beer.ConjugateBayesianParameter.natural_grad_update,
      Beer.ConjugateBayesianParameter.register_callback]
  have hmem2 : c2 ∈ (q.natural_grad_update lrate).1.callbacks := by
    simp [hq, Beer.ConjugateBayesianParameter.natural_grad_update,
      Beer.ConjugateBayesianParameter.register_callback]
  have hsnd : (q.natural_grad_update lrate).2 =
      (q.natural_grad_update lrate).1.dispatch := rfl
  refine ⟨?_, ?_, ?_⟩
  · rw [hsnd]; exact dispatch_count _ _ hmem1
  · rw [hsnd]; exact dispatch_count _ _ hmem2
  · intro e he
    rw [hsnd] at he
    rw [dispatch_state _ e he]

/-- C10: registering the same callback twice is idempotent (the callbacks
live in a set), so a subsequent update performs it once, not twice. -/
theorem register_twice_fires_once {n : ℕ}
    (p : Beer.ConjugateBayesianParameter n) (lrate : ℚ) (c : ℕ) :
    ((((p.register_callback c).register_callback c).natural_grad_update lrate).2.countP
      (fun e => e.1 == c) = 1) ∧
    ((p.register_callback c).register_callback c = p.register_callback c) := by
  constructor
  · have hmem : c ∈ (((p.register_callback c).register_callback c).natural_grad_update
        lrate).1.callbacks := by
      simp [Beer.ConjugateBayesianParameter.natural_grad_update,
        Beer.ConjugateBayesianParameter.register_callback]
    exact dispatch_count _ _ hmem
  · simp [Beer.ConjugateBayesianParameter.register_callback]

/-- Concrete instantiation of C8's theorem. -/
theorem two_callbacks_fire_once_after_update_witness :
    (0 : ℕ) ≠ 1 ∧
    (((((⟨fun _ => 2, fun _ => 3, fun _ => 5, ∅⟩ :
        Beer.ConjugateBayesianParameter 1).register_callback 0).register_callback
          1).natural_grad_update (1 : ℚ)).2.countP (fun e => e.1 == 0) = 1) := by
  refine ⟨by decide, ?_⟩
  exact (two_callbacks_fire_once_after_update
    (⟨fun _ => 2, fun _ => 3, fun _ => 5, ∅⟩ : Beer.ConjugateBayesianParameter 1)
    1 0 1 (by decide)).1

/-! ## `beer/models/gsm.py`: `GeneralizedSubspaceModel` statics -/

/-- `GeneralizedSubspaceModel.sufficient_statistics`: the accumulated
likelihood statistics are passed through unchanged (`return data`).  A data
batch is a matrix of rationals. -/
def GeneralizedSubspaceModel.sufficient_statistics (data : List (List ℚ)) :
    List (List ℚ) :=
  data

/-- C9: `sufficient_statistics` is the identity on its input. -/
theorem sufficient_statistics_id (data : List (List ℚ)) :
    GeneralizedSubspaceModel.sufficient_statistics data = data :=
  rfl

/-- The three concrete subclasses `GeneralizedSubspaceModel.create` can
dispatch to. -/
inductive GSMVariant where
  | full
  | diagonal
  | scalar
  deriving DecidableEq

/-- `GeneralizedSubspaceModel.create`: dispatch on the `hessian_type`
string.  The construction performed by the selected subclass is abstracted
to its tag; an unknown string raises `ValueError` before anything is
constructed, modelled by `Except.error` carrying the message. -/
def GeneralizedSubspaceModel.create (hessian_type : String) :
    Except String GSMVariant :=
  if hessian_type = "full" then Except.ok GSMVariant.full
  else if hessian_type = "diagonal" then Except.ok GSMVariant.diagonal
  else if hessian_type = "scalar" then Except.ok GSMVariant.scalar
  else Except.error ("Unknown hessian type: " ++ hessian_type)

/-- C7: an unrecognized `hessian_type` yields a `ValueError` (no model is
constructed), and each of the three valid strings selects the matching
variant. -/
theorem gsm_create_dispatch :
    (∀ s : String, s ≠ "full" → s ≠ "diagonal" → s ≠ "scalar" →
      GeneralizedSubspaceModel.create s =
        Except.error ("Unknown hessian type: " ++ s)) ∧
    GeneralizedSubspaceModel.create "full" = Except.ok GSMVariant.full ∧
    GeneralizedSubspaceModel.create "diagonal" = Except.ok GSMVariant.diagonal ∧
    GeneralizedSubspaceModel.create "scalar" = Except.ok GSMVariant.scalar := by
  refine ⟨?_, rfl, rfl, rfl⟩
  intro s h1 h2 h3
  simp [GeneralizedSubspaceModel.create, h1, h2, h3]

/-- Concrete instantiation of C7's theorem at the invalid string `"cubic"`. -/
theorem gsm_create_dispatch_witness :
    ("cubic" : String) ≠ "full" ∧
    GeneralizedSubspaceModel.create "cubic" =
      Except.error ("Unknown hessian type: " ++ "cubic") :=
  ⟨by decide, gsm_create_dispatch.1 "cubic" (by decide) (by decide) (by decide)⟩

/-! ## `beer/models/normalset.py`: `NormalSet.create`

The covariance-type guard in the source reads

    if cov_type not in cov_type:
        raise UnknownCovarianceType(...)

i.e. it asks whether the string `cov_type` occurs as a substring of itself,
which is always true, so the guard never fires.  An invalid type therefore
reaches `_default_param[cov_type]`, which fails with a `KeyError` instead of
the intended `UnknownCovarianceType`. -/

/-- Errors `NormalSet.create` can raise. -/
inductive NormalSetCreateError where
  | unknownCovarianceType (cov_type : String)
  | keyError (key : String)
  deriving DecidableEq

/-- The values of the `_default_param` dictionary (the three parameter
builders), abstracted to tags. -/
inductive DefaultParamMaker where
  | fullcov
  | diagcov
  | isocov
  deriving DecidableEq

/-- Lookup in the `_default_param` dictionary; `none` models a missing key. -/
def default_param (cov_type : String) : Option DefaultParamMaker :=
  if cov_type = "full" then some DefaultParamMaker.fullcov
  else if cov_type = "diagonal" then some DefaultParamMaker.diagcov
  else if cov_type = "isotropic" then some DefaultParamMaker.isocov
  else none

/-- Python's `sub in s` on strings: substring containment. -/
def strContains (s sub : String) : Bool :=
  decide (sub.data <:+: s.data)

/-- `NormalSet.create`, restricted to the covariance-type handling: the
guard `cov_type not in cov_type` exactly as written in the source, then the
`_default_param[cov_type]` lookup (a missing key is a `KeyError`). -/
def NormalSet.create (cov_type : String) :
    Except NormalSetCreateError DefaultParamMaker :=
  if ¬ strContains cov_type cov_type then
    Except.error (NormalSetCreateError.unknownCovarianceType cov_type)
  else
    match default_param cov_type with
    | some maker => Except.ok maker
    | none => Except.error (NormalSetCreateError.keyError cov_type)

/-- C6 (code bug): an invalid covariance type fails with a `KeyError`, not
with `UnknownCovarianceType`; indeed no input at all can produce
`UnknownCovarianceType`, because the guard `cov_type not in cov_type` is
vacuous. -/
theorem normalset_create_invalid_covtype :
    NormalSet.create "spherical" =
      Except.error (NormalSetCreateError.keyError "spherical") ∧
    ∀ s : String, NormalSet.create s ≠
      Except.error (NormalSetCreateError.unknownCovarianceType s) := by
  constructor
  · rfl
  · intro s h
    unfold NormalSet.create at h
    rw [if_neg (by simp [strContains])] at h
    revert h
    cases default_param s <;> simp

/-! ## `beer/dists/normalgamma.py`: `NormalGamma`

Standard parameters: `mean` (vector), `scale` (scalar), `shape` (scalar),
`rates` (vector of the same length as `mean`).  The natural-parameter vector
is the flat concatenation produced by `NormalGamma.natural_parameters`, and
`NormalGammaStdParams.from_natural_parameters` inverts it, recovering the
dimension from the vector length. -/

structure NormalGammaStdParams where
  mean : List ℚ
  scale : ℚ
  shape : ℚ
  rates : List ℚ
  deriving DecidableEq

/-- `NormalGamma.natural_parameters`:

    torch.cat([scale * mean,
               -.5 * scale * mean**2 - rates,
               -.5 * scale,
               shape - .5])
-/
def NormalGamma.natural_parameters (p : NormalGammaStdParams) : List ℚ :=
  (p.mean.map (fun m => p.scale * m))
    ++ (List.zipWith (fun m r => -(1/2) * p.scale * m ^ 2 - r) p.mean p.rates)
    ++ [-(1/2) * p.scale, p.shape - 1/2]

/-- `NormalGammaStdParams.from_natural_parameters`: slice the flat vector
(`dim = (len - 2) // 2`, `np1 = v[:dim]`, `np2 = v[dim:2*dim]`,
`np3 = v[-2]`, `np4 = v[-1]`) and solve for the standard parameters. -/
def NormalGammaStdParams.from_natural_parameters (np : List ℚ) :
    NormalGammaStdParams :=
  let dim := (np.length - 2) / 2
  let np1 := np.take dim
  let np2 := (np.drop dim).take dim
  let np3 := np.getD (np.length - 2) 0
  let np4 := np.getD (np.length - 1) 0
  let scale := -2 * np3
  let shape := np4 + 1/2
  let mean := np1.map (fun x => x / scale)
  let rates := List.zipWith (fun x m => -x - (1/2) * scale * m ^ 2) np2 mean
  ⟨mean, scale, shape, rates⟩

/-- `NormalGamma.update_from_natural_parameters`: replace the standard
parameters by the solution of the inverse map. -/
def NormalGamma.update_from_natural_parameters (_p : NormalGammaStdParams)
    (np : List ℚ) : NormalGammaStdParams :=
  NormalGammaStdParams.from_natural_parameters np

/-- Helper: multiplying every entry by `s` then dividing by `s` is the
identity when `s ≠ 0`. -/
lemma map_mul_map_div (s : ℚ) (hs : s ≠ 0) (l : List ℚ) :
    (l.map (fun m => s * m)).map (fun x => x / s) = l := by
  induction l with
  | nil => rfl
  | cons a t ih =>
    simp only [List.map_cons, ih]
    rw [mul_div_cancel_left₀ a hs]

/-- Helper: the `rates` component is recovered from the second block of the
natural-parameter vector. -/
lemma rates_block_roundtrip (s : ℚ) (mean rates : List ℚ)
    (h : mean.length = rates.length) :
    List.zipWith (fun x m => -x - (1/2) * s * m ^ 2)
      (List.zipWith (fun m r => -(1/2) * s * m ^ 2 - r) mean rates) mean = rates := by
  induction mean generalizing rates with
  | nil =>
    cases rates with
    | nil => rfl
    | cons b u => simp at h
  | cons a t ih =>
    cases rates with
    | nil => simp at h
    | cons b u =>
      simp only [List.zipWith_cons_cons, List.cons.injEq]
      refine ⟨by ring, ih u (by simpa using h)⟩

/-- C5: converting valid standard parameters to the flat natural-parameter
vector and back reproduces them exactly. -/
theorem normalgamma_roundtrip (p : NormalGammaStdParams)
    (hlen : p.mean.length = p.rates.length)
    (hscale : 0 < p.scale) (hshape : 0 < p.shape)
    (hrates : ∀ r ∈ p.rates, 0 < r) :
    NormalGamma.update_from_natural_parameters p (NormalGamma.natural_parameters p)
      = p := by
  obtain ⟨mean, scale, shape, rates⟩ := p
  simp only at hlen hscale
  have hs : scale ≠ 0 := ne_of_gt hscale
  set A := mean.map (fun m => scale * m) with hA
  set B := List.zipWith (fun m r => -(1/2) * scale * m ^ 2 - r) mean rates with hB
  have hAlen : A.length = mean.length := List.length_map _ _
  have hBlen : B.length = mean.length := by
    rw [hB, List.length_zipWith, hlen, Nat.min_self]
  have hnp : NormalGamma.natural_parameters ⟨mean, scale, shape, rates⟩
      = (A ++ B) ++ [-(1/2) * scale, shape - 1/2] := by
    rw [NormalGamma.natural_parameters]
  have hlen_np : ((A ++ B) ++ [-(1/2) * scale, shape - 1/2]).length
      = mean.length + mean.length + 2 := by
    simp only [List.length_append, List.length_cons, List.length_nil, hAlen, hBlen]
  rw [NormalGamma.update_from_natural_parameters, hnp,
    NormalGammaStdParams.from_natural_parameters]
  simp only [hlen_np]
  have hdim : (mean.length + mean.length + 2 - 2) / 2 = mean.length := by omega
  have htake : (((A ++ B) ++ [-(1/2) * scale, shape - 1/2]).take
      ((mean.length + mean.length + 2 - 2) / 2)) = A := by
    rw [hdim, List.append_assoc]
    exact List.take_left' hAlen
  have hdrop : ((((A ++ B) ++ [-(1/2) * scale, shape - 1/2]).drop
      ((mean.length + mean.length + 2 - 2) / 2)).take
      ((mean.length + mean.length + 2 - 2) / 2)) = B := by
    rw [hdim, List.append_assoc, List.drop_left' hAlen]
    exact List.take_left' hBlen
  have hlenAB : (A ++ B).length = mean.length + mean.length := by
    simp [hAlen, hBlen]
  have hnp3 : (((A ++ B) ++ [-(1/2) * scale, shape - 1/2]).getD
      (mean.length + mean.length + 2 - 2) 0) = -(1/2) * scale := by
    have h2 : mean.length + mean.length + 2 - 2 = (A ++ B).length := by
      rw [hlenAB]
      omega
    rw [List.getD_eq_getElem?_getD, h2, List.getElem?_append_right (Nat.le_refl _)]
    simp
  have hnp4 : (((A ++ B) ++ [-(1/2) * scale, shape - 1/2]).getD
      (mean.length + mean.length + 2 - 1) 0) = shape - 1/2 := by
    have h2 : mean.length + mean.length + 2 - 1 = (A ++ B).length + 1 := by
      rw [hlenAB]
      omega
    rw [List.getD_eq_getElem?_getD, h2,
      List.getElem?_append_right (Nat.le_add_right _ _)]
    simp
  rw [htake, hdrop, hnp3, hnp4]
  have hscale_rt : -2 * (-(1/2) * scale) = scale := by ring
  have hmean_rt : A.map (fun x => x / (-2 * (-(1/2) * scale))) = mean := by
    rw [hscale_rt, hA]
    exact map_mul_map_div scale hs mean
  simp only [NormalGammaStdParams.mk.injEq]
  refine ⟨hmean_rt, hscale_rt, by ring, ?_⟩
  rw [hmean_rt, hB]
  have : (fun x m => -x - (1/2) * (-2 * (-(1/2) * scale)) * m ^ 2)
      = (fun x m : ℚ => -x - (1/2) * scale * m ^ 2) := by
    funext x m
    rw [hscale_rt]
  rw [this]
  exact rates_block_roundtrip scale mean rates hlen

/-- Concrete instantiation of C5's theorem. -/
theorem normalgamma_roundtrip_witness :
    (([1, 2] : List ℚ).length = ([5, 6] : List ℚ).length ∧ (0 : ℚ) < 3 ∧
      (0 : ℚ) < 4 ∧ ∀ r ∈ ([5, 6] : List ℚ), 0 < r) ∧
    NormalGamma.update_from_natural_parameters ⟨[1, 2], 3, 4, [5, 6]⟩
      (NormalGamma.natural_parameters ⟨[1, 2], 3, 4, [5, 6]⟩)
      = (⟨[1, 2], 3, 4, [5, 6]⟩ : NormalGammaStdParams) :=
  ⟨⟨by decide, by decide, by decide, by decide⟩,
    normalgamma_roundtrip ⟨[1, 2], 3, 4, [5, 6]⟩ (by decide) (by decide)
      (by decide) (by decide)⟩

/-! ## `beer/models/gsm.py`: the three Hessian variants

Dimensions: `N` items in the batch, `D` the parameter-space dimension
(`len(global_mean)`, `len(m)`), `K` the subspace (latent) dimension.
Per-item inputs produced by the external likelihood collaborator:
`opt i : Fin D → ℚ` (the `argmax`) and the Hessian at `opt i`, whose shape
depends on the variant (`full`: `D × D` matrix, `diagonal`: `D`-vector,
`scalar`: one rational).  Model state read from the posteriors:
`m : Fin D → ℚ` (global-mean posterior mean), `W : Matrix (Fin K) (Fin D) ℚ`
(subspace posterior mean), `U : Matrix (Fin K) (Fin K) ℚ` (subspace
posterior covariance `self.subspace.posterior.cov`).

A latent posterior's natural-parameter vector is
`torch.cat([linear, quad.reshape(-1)])` for a `K`-vector `linear` and a
`K × K` matrix `quad`; we keep the two blocks of the concatenation as a
pair `(Fin K → ℚ) × Matrix (Fin K) (Fin K) ℚ` (the flattening is a
bijective re-indexing).  Likewise the mean statistics are a `D`-vector
paired with a `D × D` matrix, and the subspace statistics a `K × D` matrix
paired with a `K × K` matrix. -/

/-- `_trace_array`: trace of each matrix in a batch
(`matrices[:, idxs, idxs].sum(dim=-1)`). -/
def trace_array {N D : ℕ} (matrices : Fin N → Matrix (Fin D) (Fin D) ℚ) :
    Fin N → ℚ :=
  fun i => ∑ j, matrices i j j

/-- `hW = H @ W`, cached by `_quad_approx` (identical line in all three
variants): the subspace-weighted latent first moment per item. -/
def hW {N D K : ℕ} (H : Fin N → Fin K → ℚ) (W : Matrix (Fin K) (Fin D) ℚ) :
    Fin N → Fin D → ℚ :=
  fun i j => ∑ k, H i k * W k j

namespace GSMFull

variable {N D K : ℕ}

/-- `GeneralizedSubspaceModelFull.latent_posteriors`:
`WHW = tr_hessians[:, None, None] * U + W @ hessians @ W.t()` per item. -/
def WHW (U : Matrix (Fin K) (Fin K) ℚ) (W : Matrix (Fin K) (Fin D) ℚ)
    (hessians : Fin N → Matrix (Fin D) (Fin D) ℚ) :
    Fin N → Matrix (Fin K) (Fin K) ℚ :=
  fun i => Matrix.of fun k k' =>
    trace_array hessians i * U k k' +
      (∑ j, (∑ j', W k j' * hessians i j' j) * W k' j)

/-- `Hm_o = (hessians * (opt - m)[:, None, :]).sum(dim=-1)` per item. -/
def Hm_o (m : Fin D → ℚ) (opt : Fin N → Fin D → ℚ)
    (hessians : Fin N → Matrix (Fin D) (Fin D) ℚ) : Fin N → Fin D → ℚ :=
  fun i j => ∑ k, hessians i j k * (opt i k - m k)

/-- `acc_stats = torch.cat([-Hm_o @ W.t(), .5 * WHW], dim=-1)` per item,
kept as its two blocks. -/
def acc_stats (m : Fin D → ℚ) (W : Matrix (Fin K) (Fin D) ℚ)
    (U : Matrix (Fin K) (Fin K) ℚ) (opt : Fin N → Fin D → ℚ)
    (hessians : Fin N → Matrix (Fin D) (Fin D) ℚ) :
    Fin N → (Fin K → ℚ) × Matrix (Fin K) (Fin K) ℚ :=
  fun i =>
    (fun k => -(∑ j, Hm_o m opt hessians i j * W k j),
     Matrix.of fun k k' => (1/2) * WHW U W hessians i k k')

/-- Natural parameters assigned to the `i`-th latent posterior:
`l_post.natural_parameters = nparams_0 + acc_stats[i]`, with `nparams_0`
the latent prior's natural-parameter vector. -/
def latent_posteriors (m : Fin D → ℚ) (W : Matrix (Fin K) (Fin D) ℚ)
    (U : Matrix (Fin K) (Fin K) ℚ) (opt : Fin N → Fin D → ℚ)
    (hessians : Fin N → Matrix (Fin D) (Fin D) ℚ)
    (nparams0 : (Fin K → ℚ) × Matrix (Fin K) (Fin K) ℚ) :
    Fin N → (Fin K → ℚ) × Matrix (Fin K) (Fin K) ℚ :=
  fun i => nparams0 + acc_stats m W U opt hessians i

/-- `GeneralizedSubspaceModelFull.accumulate`, mean-parameter block:

    HWh_o = torch.sum(hessians * (opt - hW)[:, None, :], dim=-1)
    sum_hessians = .5 * hessians.sum(dim=0)
    mean_stats = torch.cat([-HWh_o.sum(dim=0), sum_hessians.reshape(-1)])

with `hW` read from the cache. -/
def mean_stats (hessians : Fin N → Matrix (Fin D) (Fin D) ℚ)
    (opt hw : Fin N → Fin D → ℚ) :
    (Fin D → ℚ) × Matrix (Fin D) (Fin D) ℚ :=
  (fun j => -(∑ i, ∑ k, hessians i j k * (opt i k - hw i k)),
   Matrix.of fun j j' => (1/2) * ∑ i, hessians i j j')

/-- `GeneralizedSubspaceModelFull.accumulate`, subspace-parameter block:

    isometric_params = tr_hessians[:, None] / len(m)
    to_m = (opt - m) * isometric_params
    tHH = .5 * (HH * isometric_params).sum(dim=0)
    subspace_stats = torch.cat([-(H.t() @ to_m).reshape(-1), tHH.reshape(-1)])
-/
def subspace_stats (hessians : Fin N → Matrix (Fin D) (Fin D) ℚ)
    (opt : Fin N → Fin D → ℚ) (m : Fin D → ℚ) (H : Fin N → Fin K → ℚ)
    (HH : Fin N → Matrix (Fin K) (Fin K) ℚ) :
    Matrix (Fin K) (Fin D) ℚ × Matrix (Fin K) (Fin K) ℚ :=
  (Matrix.of fun k j =>
      -(∑ i, H i k * ((opt i j - m j) * (trace_array hessians i / (D : ℚ)))),
   Matrix.of fun k k' =>
      (1/2) * ∑ i, HH i k k' * (trace_array hessians i / (D : ℚ)))

/-- `GeneralizedSubspaceModelFull.accumulate`: the statistics stored for
the mean and the subspace parameters, from the cached forward-pass
tensors. -/
def accumulate (hessians : Fin N → Matrix (Fin D) (Fin D) ℚ)
    (opt hw : Fin N → Fin D → ℚ) (m : Fin D → ℚ) (H : Fin N → Fin K → ℚ)
    (HH : Fin N → Matrix (Fin K) (Fin K) ℚ) :
    ((Fin D → ℚ) × Matrix (Fin D) (Fin D) ℚ) ×
      (Matrix (Fin K) (Fin D) ℚ × Matrix (Fin K) (Fin K) ℚ) :=
  (mean_stats hessians opt hw, subspace_stats hessians opt m H HH)

end GSMFull

namespace GSMDiagonal

variable {N D K : ℕ}

/-- `GeneralizedSubspaceModelDiagonal.latent_posteriors`:
`tr_hessians = hessians.sum(dim=-1)`,
`WHW = tr_hessians[:, None, None] * U + (hessians[:, None, :] * W[None]) @ W.t()`. -/
def tr_hessians (hessians : Fin N → Fin D → ℚ) : Fin N → ℚ :=
  fun i => ∑ j, hessians i j

/-- Diagonal-mode `WHW` per item. -/
def WHW (U : Matrix (Fin K) (Fin K) ℚ) (W : Matrix (Fin K) (Fin D) ℚ)
    (hessians : Fin N → Fin D → ℚ) : Fin N → Matrix (Fin K) (Fin K) ℚ :=
  fun i => Matrix.of fun k k' =>
    tr_hessians hessians i * U k k' + (∑ j, (hessians i j * W k j) * W k' j)

/-- `Hm_o = hessians * (opt - m[None])` (elementwise). -/
def Hm_o (m : Fin D → ℚ) (opt : Fin N → Fin D → ℚ)
    (hessians : Fin N → Fin D → ℚ) : Fin N → Fin D → ℚ :=
  fun i j => hessians i j * (opt i j - m j)

/-- `acc_stats = torch.cat([-Hm_o @ W.t(), .5 * WHW], dim=-1)` per item. -/
def acc_stats (m : Fin D → ℚ) (W : Matrix (Fin K) (Fin D) ℚ)
    (U : Matrix (Fin K) (Fin K) ℚ) (opt : Fin N → Fin D → ℚ)
    (hessians : Fin N → Fin D → ℚ) :
    Fin N → (Fin K → ℚ) × Matrix (Fin K) (Fin K) ℚ :=
  fun i =>
    (fun k => -(∑ j, Hm_o m opt hessians i j * W k j),
     Matrix.of fun k k' => (1/2) * WHW U W hessians i k k')

/-- Diagonal-mode latent posterior natural parameters. -/
def latent_posteriors (m : Fin D → ℚ) (W : Matrix (Fin K) (Fin D) ℚ)
    (U : Matrix (Fin K) (Fin K) ℚ) (opt : Fin N → Fin D → ℚ)
    (hessians : Fin N → Fin D → ℚ)
    (nparams0 : (Fin K → ℚ) × Matrix (Fin K) (Fin K) ℚ) :
    Fin N → (Fin K → ℚ) × Matrix (Fin K) (Fin K) ℚ :=
  fun i => nparams0 + acc_stats m W U opt hessians i

/-- `GeneralizedSubspaceModelDiagonal.accumulate`, mean block:

    HWh_o = hessians * (opt - hW)
    mean_stats = torch.cat([-HWh_o.sum(dim=0),
                            .5 * (hessians[:, None, :] * I[None]).sum(dim=0)])
-/
def mean_stats (hessians : Fin N → Fin D → ℚ) (opt hw : Fin N → Fin D → ℚ) :
    (Fin D → ℚ) × Matrix (Fin D) (Fin D) ℚ :=
  (fun j => -(∑ i, hessians i j * (opt i j - hw i j)),
   Matrix.of fun j j' =>
     (1/2) * ∑ i, hessians i j' * (1 : Matrix (Fin D) (Fin D) ℚ) j j')

/-- `GeneralizedSubspaceModelDiagonal.accumulate`, subspace block (same
formula as the full variant, with the diagonal trace). -/
def subspace_stats (hessians : Fin N → Fin D → ℚ) (opt : Fin N → Fin D → ℚ)
    (m : Fin D → ℚ) (H : Fin N → Fin K → ℚ)
    (HH : Fin N → Matrix (Fin K) (Fin K) ℚ) :
    Matrix (Fin K) (Fin D) ℚ × Matrix (Fin K) (Fin K) ℚ :=
  (Matrix.of fun k j =>
      -(∑ i, H i k * ((opt i j - m j) * (tr_hessians hessians i / (D : ℚ)))),
   Matrix.of fun k k' =>
      (1/2) * ∑ i, HH i k k' * (tr_hessians hessians i / (D : ℚ)))

/-- `GeneralizedSubspaceModelDiagonal.accumulate`. -/
def accumulate (hessians : Fin N → Fin D → ℚ) (opt hw : Fin N → Fin D → ℚ)
    (m : Fin D → ℚ) (H : Fin N → Fin K → ℚ)
    (HH : Fin N → Matrix (Fin K) (Fin K) ℚ) :
    ((Fin D → ℚ) × Matrix (Fin D) (Fin D) ℚ) ×
      (Matrix (Fin K) (Fin D) ℚ × Matrix (Fin K) (Fin K) ℚ) :=
  (mean_stats hessians opt hw, subspace_stats hessians opt m H HH)

end GSMDiagonal

namespace GSMScalar

variable {N D K : ℕ}

/-- `GeneralizedSubspaceModelScalar.latent_posteriors`:
`tr_hessians = hessians * len(m)`. -/
def tr_hessians (D : ℕ) (hessians : Fin N → ℚ) : Fin N → ℚ :=
  fun i => hessians i * (D : ℚ)

/-- Scalar-mode `WHW` per item:
`tr_hessians[:, None, None] * U + (hessians[:, None, None] * W[None]) @ W.t()`. -/
def WHW (U : Matrix (Fin K) (Fin K) ℚ) (W : Matrix (Fin K) (Fin D) ℚ)
    (hessians : Fin N → ℚ) : Fin N → Matrix (Fin K) (Fin K) ℚ :=
  fun i => Matrix.of fun k k' =>
    tr_hessians D hessians i * U k k' + (∑ j, (hessians i * W k j) * W k' j)

/-- `Hm_o = hessians[:, None] * (opt - m[None])`. -/
def Hm_o (m : Fin D → ℚ) (opt : Fin N → Fin D → ℚ) (hessians : Fin N → ℚ) :
    Fin N → Fin D → ℚ :=
  fun i j => hessians i * (opt i j - m j)

/-- `acc_stats = torch.cat([-Hm_o @ W.t(), .5 * WHW], dim=-1)` per item. -/
def acc_stats (m : Fin D → ℚ) (W : Matrix (Fin K) (Fin D) ℚ)
    (U : Matrix (Fin K) (Fin K) ℚ) (opt : Fin N → Fin D → ℚ)
    (hessians : Fin N → ℚ) :
    Fin N → (Fin K → ℚ) × Matrix (Fin K) (Fin K) ℚ :=
  fun i =>
    (fun k => -(∑ j, Hm_o m opt hessians i j * W k j),
     Matrix.of fun k k' => (1/2) * WHW U W hessians i k k')

/-- Scalar-mode latent posterior natural parameters. -/
def latent_posteriors (m : Fin D → ℚ) (W : Matrix (Fin K) (Fin D) ℚ)
    (U : Matrix (Fin K) (Fin K) ℚ) (opt : Fin N → Fin D → ℚ)
    (hessians : Fin N → ℚ)
    (nparams0 : (Fin K → ℚ) × Matrix (Fin K) (Fin K) ℚ) :
    Fin N → (Fin K → ℚ) × Matrix (Fin K) (Fin K) ℚ :=
  fun i => nparams0 + acc_stats m W U opt hessians i

/-- `GeneralizedSubspaceModelScalar.accumulate`, mean block:

    HWh_o = hessians[:, None] * (opt - hW)
    mean_stats = torch.cat([-HWh_o.sum(dim=0),
                            .5 * (hessians[:, None, None] * I[None]).sum(dim=0)])
-/
def mean_stats (hessians : Fin N → ℚ) (opt hw : Fin N → Fin D → ℚ) :
    (Fin D → ℚ) × Matrix (Fin D) (Fin D) ℚ :=
  (fun j => -(∑ i, hessians i * (opt i j - hw i j)),
   Matrix.of fun j j' =>
     (1/2) * ∑ i, hessians i * (1 : Matrix (Fin D) (Fin D) ℚ) j j')

/-- `GeneralizedSubspaceModelScalar.accumulate`, subspace block. -/
def subspace_stats (hessians : Fin N → ℚ) (opt : Fin N → Fin D → ℚ)
    (m : Fin D → ℚ) (H : Fin N → Fin K → ℚ)
    (HH : Fin N → Matrix (Fin K) (Fin K) ℚ) :
    Matrix (Fin K) (Fin D) ℚ × Matrix (Fin K) (Fin K) ℚ :=
  (Matrix.of fun k j =>
      -(∑ i, H i k * ((opt i j - m j) * (tr_hessians D hessians i / (D : ℚ)))),
   Matrix.of fun k k' =>
      (1/2) * ∑ i, HH i k k' * (tr_hessians D hessians i / (D : ℚ)))

/-- `GeneralizedSubspaceModelScalar.accumulate`. -/
def accumulate (hessians : Fin N → ℚ) (opt hw : Fin N → Fin D → ℚ)
    (m : Fin D → ℚ) (H : Fin N → Fin K → ℚ)
    (HH : Fin N → Matrix (Fin K) (Fin K) ℚ) :
    ((Fin D → ℚ) × Matrix (Fin D) (Fin D) ℚ) ×
      (Matrix (Fin K) (Fin D) ℚ × Matrix (Fin K) (Fin K) ℚ) :=
  (mean_stats hessians opt hw, subspace_stats hessians opt m H HH)

end GSMScalar

/-- C2: in the full-Hessian variant, the `i`-th latent posterior's natural
parameters are the latent prior's natural parameters plus the block pair
`(-(Hess_i (opt_i - m)) Wᵀ, ½ (tr(Hess_i) U + W Hess_i Wᵀ))`. -/
theorem full_latent_posteriors_spec {N D K : ℕ}
    (m : Fin D → ℚ) (W : Matrix (Fin K) (Fin D) ℚ)
    (U : Matrix (Fin K) (Fin K) ℚ) (opt : Fin N → Fin D → ℚ)
    (hessians : Fin N → Matrix (Fin D) (Fin D) ℚ)
    (nparams0 : (Fin K → ℚ) × Matrix (Fin K) (Fin K) ℚ) (i : Fin N) :
    GSMFull.latent_posteriors m W U opt hessians nparams0 i =
      (nparams0.1 - W.mulVec ((hessians i).mulVec (opt i - m)),
       nparams0.2 + ((1:ℚ)/2) • ((hessians i).trace • U + W * hessians i * W.transpose)) := by
  have h1 : ∀ k, (GSMFull.acc_stats m W U opt hessians i).1 k
      = -(W.mulVec ((hessians i).mulVec (opt i - m)) k) := by
    intro k
    simp only [GSMFull.acc_stats, GSMFull.Hm_o, Matrix.mulVec, Matrix.dotProduct,
      neg_inj]
    refine Finset.sum_congr rfl fun j _ => ?_
    rw [mul_comm]
    simp [Pi.sub_apply]
  have h2 : (GSMFull.acc_stats m W U opt hessians i).2
      = ((1:ℚ)/2) • ((hessians i).trace • U + W * hessians i * W.transpose) := by
    ext k k'
    show (1/2) * GSMFull.WHW U W hessians i k k' =
      (((1:ℚ)/2) • ((hessians i).trace • U + W * hessians i * W.transpose)) k k'
    simp [GSMFull.WHW, Matrix.smul_apply, Matrix.add_apply, Matrix.mul_apply,
      Matrix.transpose_apply, Matrix.trace, Matrix.diag, trace_array, smul_eq_mul]
  have e1 : (GSMFull.latent_posteriors m W U opt hessians nparams0 i).1 =
      nparams0.1 - W.mulVec ((hessians i).mulVec (opt i - m)) := by
    funext k
    show nparams0.1 k + (GSMFull.acc_stats m W U opt hessians i).1 k = _
    rw [h1 k, Pi.sub_apply]
    exact (sub_eq_add_neg _ _).symm
  have e2 : (GSMFull.latent_posteriors m W U opt hessians nparams0 i).2 =
      nparams0.2 + ((1:ℚ)/2) • ((hessians i).trace • U + W * hessians i * W.transpose) := by
    show nparams0.2 + (GSMFull.acc_stats m W U opt hessians i).2 = _
    rw [h2]
  exact Prod.ext e1 e2

/-- C3: in the full-Hessian variant, the accumulated mean statistics are
the pair `(-Σ_i Hess_i (opt_i - hW_i), ½ Σ_i Hess_i)` with `hW` the cached
`H @ W` from the forward pass. -/
theorem full_accumulate_mean_spec {N D K : ℕ}
    (hessians : Fin N → Matrix (Fin D) (Fin D) ℚ) (opt : Fin N → Fin D → ℚ)
    (m : Fin D → ℚ) (W : Matrix (Fin K) (Fin D) ℚ) (H : Fin N → Fin K → ℚ)
    (HH : Fin N → Matrix (Fin K) (Fin K) ℚ) :
    (GSMFull.accumulate hessians opt (hW H W) m H HH).1 =
      (-(∑ i, (hessians i).mulVec (opt i - (Matrix.of H * W) i)),
       ((1:ℚ)/2) • ∑ i, hessians i) := by
  have e1 : (GSMFull.accumulate hessians opt (hW H W) m H HH).1.1 =
      -(∑ i, (hessians i).mulVec (opt i - (Matrix.of H * W) i)) := by
    funext j
    show -(∑ i, ∑ k, hessians i j k * (opt i k - hW H W i k)) = _
    rw [Pi.neg_apply, Finset.sum_apply, neg_inj]
    refine Finset.sum_congr rfl fun i _ => ?_
    simp only [Matrix.mulVec, Matrix.dotProduct, Matrix.mul_apply, Pi.sub_apply,
      Matrix.of_apply, hW]
  have e2 : (GSMFull.accumulate hessians opt (hW H W) m H HH).1.2 =
      ((1:ℚ)/2) • ∑ i, hessians i := by
    ext j j'
    show (1/2) * ∑ i, hessians i j j' = (((1:ℚ)/2) • ∑ i, hessians i) j j'
    simp [Matrix.smul_apply, Matrix.sum_apply, smul_eq_mul]
  exact Prod.ext e1 e2

/-! ### Mode equivalence (C4)

The `full`, `diagonal` and `scalar` variants are compared on the same
inputs, with a likelihood collaborator whose Hessian outputs agree across
modes up to shape: the full matrix is `hS i • 1`, the diagonal is constant
`hS i`, and the scalar is `hS i`. -/

section ModeEquivalence

variable {N D K : ℕ} (m : Fin D → ℚ) (W : Matrix (Fin K) (Fin D) ℚ)
  (U : Matrix (Fin K) (Fin K) ℚ) (opt hw : Fin N → Fin D → ℚ)
  (H : Fin N → Fin K → ℚ) (HH : Fin N → Matrix (Fin K) (Fin K) ℚ)
  (hF : Fin N → Matrix (Fin D) (Fin D) ℚ) (hD : Fin N → Fin D → ℚ)
  (hS : Fin N → ℚ)

/-- Under shape agreement the three per-item traces coincide. -/
lemma tr_full_eq_diag (h1 : ∀ i, hF i = hS i • (1 : Matrix (Fin D) (Fin D) ℚ))
    (h2 : ∀ i j, hD i j = hS i) :
    trace_array hF = GSMDiagonal.tr_hessians hD := by
  funext i
  simp [trace_array, GSMDiagonal.tr_hessians, h1, h2, Matrix.smul_apply,
    Matrix.one_apply, smul_eq_mul]

/-- The diagonal and scalar traces coincide. -/
lemma tr_diag_eq_scal (h2 : ∀ i j, hD i j = hS i) :
    GSMDiagonal.tr_hessians hD = GSMScalar.tr_hessians D hS := by
  funext i
  simp [GSMDiagonal.tr_hessians, GSMScalar.tr_hessians, h2, Finset.sum_const,
    Finset.card_univ, nsmul_eq_mul, mul_comm]

/-- Row-by-vector contraction of `s • 1` picks out one entry. -/
lemma smul_one_dot (s : ℚ) (v : Fin D → ℚ) (j : Fin D) :
    (∑ k, (s • (1 : Matrix (Fin D) (Fin D) ℚ)) j k * v k) = s * v j := by
  simp [Matrix.smul_apply, Matrix.one_apply, ite_mul, mul_ite, smul_eq_mul,
    Finset.sum_ite_eq, mul_assoc]

/-- Vector-by-column contraction of `s • 1` picks out one entry. -/
lemma dot_smul_one (s : ℚ) (v : Fin D → ℚ) (j : Fin D) :
    (∑ j', v j' * (s • (1 : Matrix (Fin D) (Fin D) ℚ)) j' j) = s * v j := by
  simp [Matrix.smul_apply, Matrix.one_apply, ite_mul, mul_ite, smul_eq_mul,
    Finset.sum_ite_eq', mul_comm, mul_assoc]

/-- The full- and diagonal-mode per-item latent-posterior increments agree. -/
lemma acc_stats_full_eq_diag
    (h1 : ∀ i, hF i = hS i • (1 : Matrix (Fin D) (Fin D) ℚ))
    (h2 : ∀ i j, hD i j = hS i) :
    GSMFull.acc_stats m W U opt hF = GSMDiagonal.acc_stats m W U opt hD := by
  have htr := tr_full_eq_diag hF hD hS h1 h2
  funext i
  have hHm : ∀ j, GSMFull.Hm_o m opt hF i j = GSMDiagonal.Hm_o m opt hD i j := by
    intro j
    rw [GSMFull.Hm_o, GSMDiagonal.Hm_o, h1, h2, smul_one_dot]
  have hWHW : GSMFull.WHW U W hF i = GSMDiagonal.WHW U W hD i := by
    ext k k'
    rw [GSMFull.WHW, GSMDiagonal.WHW]
    simp only [Matrix.of_apply, htr]
    congr 1
    refine Finset.sum_congr rfl fun j _ => ?_
    rw [h1, dot_smul_one, h2]
  refine Prod.ext ?_ ?_
  · funext k
    show -(∑ j, GSMFull.Hm_o m opt hF i j * W k j) = _
    simp only [hHm]
    rfl
  · show Matrix.of (fun k k' => (1/2) * GSMFull.WHW U W hF i k k') = _
    rw [hWHW]
    rfl

/-- The diagonal- and scalar-mode per-item latent-posterior increments
agree. -/
lemma acc_stats_diag_eq_scal (h2 : ∀ i j, hD i j = hS i) :
    GSMDiagonal.acc_stats m W U opt hD = GSMScalar.acc_stats m W U opt hS := by
  have htr := tr_diag_eq_scal hD hS h2
  funext i
  have hHm : ∀ j, GSMDiagonal.Hm_o m opt hD i j = GSMScalar.Hm_o m opt hS i j := by
    intro j
    rw [GSMDiagonal.Hm_o, GSMScalar.Hm_o, h2]
  have hWHW : GSMDiagonal.WHW U W hD i = GSMScalar.WHW U W hS i := by
    ext k k'
    rw [GSMDiagonal.WHW, GSMScalar.WHW]
    simp only [Matrix.of_apply, htr]
    congr 1
    refine Finset.sum_congr rfl fun j _ => ?_
    rw [h2]
  refine Prod.ext ?_ ?_
  · funext k
    show -(∑ j, GSMDiagonal.Hm_o m opt hD i j * W k j) = _
    simp only [hHm]
    rfl
  · show Matrix.of (fun k k' => (1/2) * GSMDiagonal.WHW U W hD i k k') = _
    rw [hWHW]
    rfl

/-- The full- and diagonal-mode accumulated statistics agree. -/
lemma accumulate_full_eq_diag
    (h1 : ∀ i, hF i = hS i • (1 : Matrix (Fin D) (Fin D) ℚ))
    (h2 : ∀ i j, hD i j = hS i) :
    GSMFull.accumulate hF opt hw m H HH = GSMDiagonal.accumulate hD opt hw m H HH := by
  have htr := tr_full_eq_diag hF hD hS h1 h2
  refine Prod.ext (Prod.ext ?_ ?_) (Prod.ext ?_ ?_)
  · funext j
    show -(∑ i, ∑ k, hF i j k * (opt i k - hw i k)) =
      -(∑ i, hD i j * (opt i j - hw i j))
    rw [neg_inj]
    refine Finset.sum_congr rfl fun i _ => ?_
    rw [h1, smul_one_dot, h2]
  · ext j j'
    show (1/2) * ∑ i, hF i j j' =
      (1/2) * ∑ i, hD i j' * (1 : Matrix (Fin D) (Fin D) ℚ) j j'
    congr 1
    refine Finset.sum_congr rfl fun i _ => ?_
    rw [h1, h2, Matrix.smul_apply, smul_eq_mul]
  · ext k j
    show -(∑ i, H i k * ((opt i j - m j) * (trace_array hF i / (D : ℚ)))) = _
    rw [htr]
    rfl
  · ext k k'
    show (1/2) * ∑ i, HH i k k' * (trace_array hF i / (D : ℚ)) = _
    rw [htr]
    rfl

/-- The diagonal- and scalar-mode accumulated statistics agree. -/
lemma accumulate_diag_eq_scal (h2 : ∀ i j, hD i j = hS i) :
    GSMDiagonal.accumulate hD opt hw m H HH = GSMScalar.accumulate hS opt hw m H HH := by
  have htr := tr_diag_eq_scal hD hS h2
  refine Prod.ext (Prod.ext ?_ ?_) (Prod.ext ?_ ?_)
  · funext j
    show -(∑ i, hD i j * (opt i j - hw i j)) = -(∑ i, hS i * (opt i j - hw i j))
    rw [neg_inj]
    refine Finset.sum_congr rfl fun i _ => ?_
    rw [h2]
  · ext j j'
    show (1/2) * ∑ i, hD i j' * (1 : Matrix (Fin D) (Fin D) ℚ) j j' =
      (1/2) * ∑ i, hS i * (1 : Matrix (Fin D) (Fin D) ℚ) j j'
    congr 1
    refine Finset.sum_congr rfl fun i _ => ?_
    rw [h2]
  · ext k j
    show -(∑ i, H i k * ((opt i j - m j) * (GSMDiagonal.tr_hessians hD i / (D : ℚ)))) = _
    rw [htr]
    rfl
  · ext k k'
    show (1/2) * ∑ i, HH i k k' * (GSMDiagonal.tr_hessians hD i / (D : ℚ)) = _
    rw [htr]
    rfl

end ModeEquivalence

/-- C4: with a one-dimensional latent space and a likelihood collaborator
whose Hessian outputs agree across modes up to shape (`full = hS i • 1`,
`diagonal j = hS i`, `scalar = hS i`), the three variants produce identical
latent posterior natural parameters and identical accumulated mean and
subspace statistics. -/
theorem gsm_mode_equivalence {N D : ℕ}
    (m : Fin D → ℚ) (W : Matrix (Fin 1) (Fin D) ℚ) (U : Matrix (Fin 1) (Fin 1) ℚ)
    (opt hw : Fin N → Fin D → ℚ)
    (nparams0 : (Fin 1 → ℚ) × Matrix (Fin 1) (Fin 1) ℚ)
    (H : Fin N → Fin 1 → ℚ) (HH : Fin N → Matrix (Fin 1) (Fin 1) ℚ)
    (hF : Fin N → Matrix (Fin D) (Fin D) ℚ) (hD : Fin N → Fin D → ℚ)
    (hS : Fin N → ℚ)
    (h1 : ∀ i, hF i = hS i • (1 : Matrix (Fin D) (Fin D) ℚ))
    (h2 : ∀ i j, hD i j = hS i) :
    (GSMFull.latent_posteriors m W U opt hF nparams0 =
        GSMDiagonal.latent_posteriors m W U opt hD nparams0 ∧
      GSMDiagonal.latent_posteriors m W U opt hD nparams0 =
        GSMScalar.latent_posteriors m W U opt hS nparams0) ∧
    (GSMFull.accumulate hF opt hw m H HH =
        GSMDiagonal.accumulate hD opt hw m H HH ∧
      GSMDiagonal.accumulate hD opt hw m H HH =
        GSMScalar.accumulate hS opt hw m H HH) := by
  refine ⟨⟨?_, ?_⟩, accumulate_full_eq_diag m opt hw H HH hF hD hS h1 h2,
    accumulate_diag_eq_scal m opt hw H HH hD hS h2⟩
  · funext i
    show nparams0 + GSMFull.acc_stats m W U opt hF i = _
    rw [acc_stats_full_eq_diag m W U opt hF hD hS h1 h2]
    rfl
  · funext i
    show nparams0 + GSMDiagonal.acc_stats m W U opt hD i = _
    rw [acc_stats_diag_eq_scal m W U opt hD hS h2]
    rfl

/-- Witness inputs for the mode-equivalence instantiation: one item,
parameter dimension two, latent dimension one, all three Hessian
representations encoding the same `-3 * identity` curvature. -/
def wit_m : Fin 2 → ℚ := fun _ => 1

/-- Witness subspace basis. -/
def wit_W : Matrix (Fin 1) (Fin 2) ℚ := Matrix.of fun _ _ => 2

/-- Witness subspace posterior covariance. -/
def wit_U : Matrix (Fin 1) (Fin 1) ℚ := Matrix.of fun _ _ => 1

/-- Witness per-item likelihood optimum. -/
def wit_opt : Fin 1 → Fin 2 → ℚ := fun _ _ => 5

/-- Witness cached `hW` row. -/
def wit_hw : Fin 1 → Fin 2 → ℚ := fun _ _ => 4

/-- Witness latent-prior natural parameters. -/
def wit_np0 : (Fin 1 → ℚ) × Matrix (Fin 1) (Fin 1) ℚ :=
  (fun _ => 0, Matrix.of fun _ _ => -(1/2))

/-- Witness latent first moments. -/
def wit_H : Fin 1 → Fin 1 → ℚ := fun _ _ => 1

/-- Witness latent second moments. -/
def wit_HH : Fin 1 → Matrix (Fin 1) (Fin 1) ℚ := fun _ => Matrix.of fun _ _ => 2

/-- Witness full-mode Hessians. -/
def wit_hF : Fin 1 → Matrix (Fin 2) (Fin 2) ℚ := fun _ => (-3 : ℚ) • 1

/-- Witness diagonal-mode Hessians. -/
def wit_hD : Fin 1 → Fin 2 → ℚ := fun _ _ => -3

/-- Witness scalar-mode Hessians. -/
def wit_hS : Fin 1 → ℚ := fun _ => -3

/-- Concrete instantiation of C4's theorem. -/
theorem gsm_mode_equivalence_witness :
    ((∀ i, wit_hF i = wit_hS i • (1 : Matrix (Fin 2) (Fin 2) ℚ)) ∧
      (∀ i j, wit_hD i j = wit_hS i)) ∧
    GSMFull.latent_posteriors wit_m wit_W wit_U wit_opt wit_hF wit_np0 =
      GSMDiagonal.latent_posteriors wit_m wit_W wit_U wit_opt wit_hD wit_np0 :=
  ⟨⟨fun _ => rfl, fun _ _ => rfl⟩,
    (gsm_mode_equivalence wit_m wit_W wit_U wit_opt wit_hw wit_np0 wit_H wit_HH
      wit_hF wit_hD wit_hS (fun _ => rfl) (fun _ _ => rfl)).1.1⟩

end Beer
